import Mathlib

/-!
Verification of the crawl-and-analyze engine of the skyell fullstack
repository (backend crawler service, Go).  The functions of the crawler are
shallowly embedded below: pure Go helpers become Lean functions, the
stateful orchestrator becomes explicit state passing over a database
state record, and network effects are an explicit oracle parameter.

Go strings are modelled as Lean strings over their character sequences
(the URLs and markers of the repository are ASCII, where the Go byte-based
`len`/slicing and Unicode-aware folding coincide with the Lean
character-based operations).
-/

/-! ### String helpers modelling the Go `strings` package -/

/-- Model of Go `strings.Contains`: `pat` occurs as a contiguous substring. -/
def strContains (s pat : String) : Bool :=
  (s.data.tails).any (fun t => pat.data.isPrefixOf t)

/-- Model of Go `strings.HasPrefix` on strings. -/
def strHasPre (s pat : String) : Bool :=
  pat.data.isPrefixOf s.data

/-- Model of Go `strings.ToLower` (character-wise folding; the inputs
the crawler folds are ASCII). -/
def strToLower (s : String) : String :=
  ⟨s.data.map Char.toLower⟩

/-- Model of Go `strings.TrimSpace`: strip leading and trailing
whitespace. -/
def strTrim (s : String) : String :=
  ⟨((s.data.dropWhile Char.isWhitespace).reverse.dropWhile Char.isWhitespace).reverse⟩

/-! ### Model of the parts of Go `net/url` used by the crawler

`NetURL` models `url.URL` with the fields the crawler observes
(`Scheme`, `Host`, `Path`, `RawQuery`, `Fragment`; userinfo is folded
into the authority handling, opaque bodies are stored in `path` with an
empty host, which preserves the observable classification behaviour of
`categorizeLink`). -/

structure NetURL where
  scheme : String
  host : String
  path : String
  query : String
  fragment : String
deriving Repr, DecidableEq

/-- Characters Go `url.Parse` rejects outright (ASCII control characters). -/
def isCtrlChar (c : Char) : Bool :=
  c.toNat < 0x20 || c.toNat == 0x7f

/-- Split a character list at the first character satisfying `p`:
returns the part before it and, when found, the part after it. -/
def splitAtFirst (p : Char → Bool) : List Char → List Char × Option (List Char)
  | [] => ([], none)
  | c :: cs =>
    if p c then ([], some cs)
    else
      let r := splitAtFirst p cs
      (c :: r.1, r.2)

/-- Valid non-initial scheme characters per `net/url.getScheme`. -/
def isSchemeChar (c : Char) : Bool :=
  c.isAlpha || c.isDigit || c == '+' || c == '-' || c == '.'

/-- Model of `net/url.getScheme`: returns `none` on the parse error
(a colon before any scheme, i.e. an empty scheme), otherwise the
optional lowercased scheme and the remainder. -/
def getScheme (l : List Char) : Option (Option String × List Char) :=
  match l with
  | [] => some (none, [])
  | c :: cs =>
    if c == ':' then none
    else if c.isAlpha then
      let r := splitAtFirst (fun d => !(isSchemeChar d)) (c :: cs)
      match r.2 with
      | some rest =>
        -- the split character: recover it to check it was a colon
        let stop := (c :: cs).drop r.1.length
        match stop with
        | ':' :: _ => some (some (String.mk (r.1.map Char.toLower)), rest)
        | _ => some (none, c :: cs)
      | none => some (none, c :: cs)
    else some (none, c :: cs)

/-- Model of the authority/host validation in `net/url.parseHost`:
a bracketed IPv6 host must close its bracket, and an optional port
after the last colon must be all digits. -/
def validHost (h : List Char) : Bool :=
  match h with
  | '[' :: rest =>
    let r := splitAtFirst (fun d => d == ']') rest
    match r.2 with
    | none => false
    | some tail =>
      match tail with
      | [] => true
      | ':' :: port => port.all Char.isDigit
      | _ => false
  | _ =>
    let r := splitAtFirst (fun d => d == ':') h
    match r.2 with
    | none => true
    | some port => port.all Char.isDigit

/-- Strip the userinfo part (everything up to the last '@') from an
authority, keeping host and optional port, as `net/url.parseAuthority`. -/
def hostOfAuthority (a : List Char) : List Char :=
  match splitAtFirst (fun d => d == '@') a.reverse with
  | (h, some _) => h.reverse
  | (_, none) => a

/-- Model of `net/url.Parse` on the subset of behaviours the crawler
exercises: rejects control characters, an empty scheme, an invalid
authority, and a colon in the first segment of a scheme-less relative
path; splits fragment, scheme, authority, query and path. -/
def urlParse (rawURL : String) : Option NetURL :=
  if rawURL.data.any isCtrlChar then none
  else
    let f := splitAtFirst (fun c => c == '#') rawURL.data
    let frag := (f.2.getD []).asString
    match getScheme f.1 with
    | none => none
    | some (schemeOpt, rest0) =>
      let scheme := (schemeOpt.getD "")
      let q := splitAtFirst (fun c => c == '?') rest0
      let query := (q.2.getD []).asString
      let rest := q.1
      match rest with
      | '/' :: '/' :: auth0 =>
        let a := splitAtFirst (fun c => c == '/') auth0
        let host := hostOfAuthority a.1
        if validHost host then
          let path :=
            match a.2 with
            | some p => ('/' :: p).asString
            | none => ""
          some ⟨scheme, host.asString, path, query, frag⟩
        else none
      | _ =>
        if scheme ≠ "" then
          -- opaque or rooted-path reference of an absolute URL
          some ⟨scheme, "", rest.asString, query, frag⟩
        else
          -- relative reference: Go rejects a colon in the first segment
          let seg := splitAtFirst (fun c => c == '/') rest
          if seg.1.any (fun c => c == ':') then none
          else some ⟨"", "", rest.asString, query, frag⟩

/-- Last index of '/' in a character list, used by path merging. -/
def lastSlashSplit (l : List Char) : List Char :=
  match splitAtFirst (fun d => d == '/') l.reverse with
  | (_, some before) => before.reverse ++ ['/']
  | (_, none) => []

/-- Split a character list on a separator character (the segments of a
path), keeping empty segments. -/
def splitOnCharAux (c : Char) : List Char → List Char → List String
  | [], acc => [acc.reverse.asString]
  | d :: ds, acc =>
    if d == c then acc.reverse.asString :: splitOnCharAux c ds []
    else splitOnCharAux c ds (d :: acc)

def splitOnChar (c : Char) (l : List Char) : List String :=
  splitOnCharAux c l []

/-- Remove "." and ".." segments, as `net/url.resolvePath` does. -/
def removeDotSegments (segs : List String) : List String :=
  segs.foldl
    (fun acc seg =>
      match seg with
      | "." => acc
      | ".." => acc.dropLast
      | s => acc ++ [s]) []

/-- Model of `net/url.resolvePath`: merge a reference path with a base
path and remove dot segments; the result is rooted. -/
def resolvePath (base ref : String) : String :=
  let full : String :=
    if ref = "" then base
    else if strHasPre ref "/" then ref
    else (lastSlashSplit base.data).asString ++ ref
  if full = "" then ""
  else
    let segs := (splitOnChar '/' full.data).drop 1
    let trail : List String :=
      match segs.getLast? with
      | some "." => [""]
      | some ".." => [""]
      | _ => []
    let out := removeDotSegments segs ++ trail
    "/" ++ String.intercalate "/" out

/-- Model of `(*url.URL).ResolveReference`: RFC 3986 reference
resolution as implemented in `net/url`. -/
def resolveReference (u ref : NetURL) : NetURL :=
  if ref.scheme ≠ "" then
    { ref with path := resolvePath ref.path "" }
  else if ref.host ≠ "" then
    { scheme := u.scheme, host := ref.host,
      path := resolvePath ref.path "", query := ref.query,
      fragment := ref.fragment }
  else if ref.path = "" ∧ ref.query = "" then
    { scheme := u.scheme, host := u.host, path := u.path,
      query := u.query, fragment := ref.fragment }
  else
    { scheme := u.scheme, host := u.host,
      path := resolvePath u.path ref.path,
      query := if ref.path = "" then ref.query else ref.query,
      fragment := ref.fragment }

/-- Model of `(*url.URL).String` for the modelled field subset. -/
def urlString (u : NetURL) : String :=
  (if u.scheme ≠ "" then u.scheme ++ ":" else "")
    ++ (if u.host ≠ "" then "//" ++ u.host else "")
    ++ u.path
    ++ (if u.query ≠ "" then "?" ++ u.query else "")
    ++ (if u.fragment ≠ "" then "#" ++ u.fragment else "")

/-! ### Model of the `golang.org/x/net/html` node tree

`Node` models `html.Node` with the fields the crawler reads: `Type`,
`Data`, `Attr`, and the child list (`FirstChild`/`NextSibling` become a
list of children).  The child list is a mutually defined inductive so
that structural recursion and induction over trees are direct. -/

inductive NodeType where
  | errorNode
  | textNode
  | documentNode
  | elementNode
  | commentNode
  | doctypeNode
deriving Repr, DecidableEq

structure Attribute where
  key : String
  val : String
deriving Repr, DecidableEq

mutual
inductive Node where
  | mk (ntype : NodeType) (data : String) (attr : List Attribute) (children : NodeList)
inductive NodeList where
  | nil
  | cons (hd : Node) (tl : NodeList)
end

def Node.ntype : Node → NodeType
  | .mk t _ _ _ => t

def Node.data : Node → String
  | .mk _ d _ _ => d

def Node.attr : Node → List Attribute
  | .mk _ _ a _ => a

def Node.children : Node → NodeList
  | .mk _ _ _ c => c

/-- The accumulator `CrawlData` of the crawler; `HeadingCounts` is the
Go `map[string]int`, modelled as a total function with default 0. -/
structure CrawlData where
  title : String
  htmlVersion : String
  hasLoginForm : Bool
  headingCounts : String → Nat
  internalLinks : List String
  externalLinks : List String

/-- The freshly initialised accumulator of `fetchAndAnalyze`. -/
def initCrawlData : CrawlData :=
  { title := "", htmlVersion := "", hasLoginForm := false,
    headingCounts := fun _ => 0, internalLinks := [], externalLinks := [] }

/-- Function `categorizeLink` from the crawler: ignore empty, fragment-only and
javascript hrefs; otherwise parse, resolve against the base URL, and
append to the internal list (same or empty host) or the external list. -/
def categorizeLink (href : String) (data : CrawlData) (baseURL : NetURL) : CrawlData :=
  if href = "" || strHasPre href "#" || strHasPre href "javascript:" then data
  else
    match urlParse href with
    | none => data
    | some linkURL =>
      let resolvedURL := resolveReference baseURL linkURL
      if resolvedURL.host = baseURL.host ∨ resolvedURL.host = "" then
        { data with internalLinks := data.internalLinks ++ [urlString resolvedURL] }
      else
        { data with externalLinks := data.externalLinks ++ [urlString resolvedURL] }

/-- The attribute scan inside the `walkFormNode` closure of `isLoginForm`: the Go
loop keeps the last value seen for each of the `type` and `name` keys,
lowercased. -/
def inputTypeOf (attrs : List Attribute) : String :=
  attrs.foldl (fun s a => if a.key = "type" then strToLower a.val else s) ""

def inputNameOf (attrs : List Attribute) : String :=
  attrs.foldl (fun s a => if a.key = "name" then strToLower a.val else s) ""

mutual
/-- Closure `walkFormNode` of `isLoginForm`: accumulates the pair
(hasPasswordField, hasUsernameField) over the subtree. -/
def loginScan (n : Node) (st : Bool × Bool) : Bool × Bool :=
  match n with
  | .mk t d attrs children =>
    let st1 :=
      if t = NodeType.elementNode ∧ d = "input" then
        let it := inputTypeOf attrs
        let nm := inputNameOf attrs
        let hasPw := st.1 || (it == "password")
        let hasUser := st.2 ||
          (strContains nm "user" || strContains nm "email" ||
            strContains nm "login" || (it == "email"))
        (hasPw, hasUser)
      else st
    loginScanList children st1
def loginScanList (l : NodeList) (st : Bool × Bool) : Bool × Bool :=
  match l with
  | .nil => st
  | .cons c cs => loginScanList cs (loginScan c st)
end

/-- Function `isLoginForm` from the crawler: a password input and a
username/email/login-identifier input must both occur in the subtree. -/
def isLoginForm (formNode : Node) : Bool :=
  let st := loginScan formNode (false, false)
  st.1 && st.2

/-- Whitespace class of the Go regexp backslash-s: tab, newline,
form feed, carriage return, space. -/
def goSpace (c : Char) : Bool :=
  c == '\t' || c == '\n' || c == '\x0c' || c == '\r' || c == ' '

/-- Strip a literal head from a character list. -/
def stripHead : List Char → List Char → Option (List Char)
  | [], t => some t
  | _ :: _, [] => none
  | c :: cs, d :: ds => if c = d then stripHead cs ds else none

/-- Model of matching the Go regular expression used by
`detectHTMLVersion` (doctype, one or more spaces, html) anywhere in the
string. -/
def doctypeReMatch (s : String) : Bool :=
  s.data.tails.any (fun t =>
    match stripHead "<!doctype".data t with
    | none => false
    | some rest =>
      let ws := rest.takeWhile goSpace
      let after := rest.dropWhile goSpace
      !ws.isEmpty && "html".data.isPrefixOf after)

/-- Function `detectHTMLVersion` from the crawler: ordered first-match-wins
checks over the lowercased document text. -/
def detectHTMLVersion (htmlContent : String) : String :=
  let c := strToLower htmlContent
  if strContains c "<!doctype html>" then "HTML5"
  else if strContains c "html 4.01" then "HTML 4.01"
  else if strContains c "xhtml 1.0" then "XHTML 1.0"
  else if strContains c "xhtml 1.1" then "XHTML 1.1"
  else if doctypeReMatch c then "HTML"
  else "Unknown"

/-- First `href` attribute value of an anchor, as the Go loop with its
`break` reads it. -/
def firstHref : List Attribute → Option String
  | [] => none
  | a :: rest => if a.key = "href" then some a.val else firstHref rest

/-- The heading tag names the `walkNode` switch recognises. -/
def isHeadingTag (tag : String) : Bool :=
  tag = "h1" || tag = "h2" || tag = "h3" || tag = "h4" || tag = "h5" || tag = "h6"

mutual
/-- Function `walkNode` from the crawler: one depth-first traversal updating the
accumulator; children are visited after the node itself. -/
def walkNode (n : Node) (data : CrawlData) (baseURL : NetURL) (htmlContent : String) : CrawlData :=
  match n with
  | nn@(.mk t dat attrs children) =>
    let d1 :=
      if t = NodeType.elementNode then
        let tag := strToLower dat
        if tag = "title" then
          match children with
          | .cons fc _ => { data with title := strTrim fc.data }
          | .nil => data
        else if isHeadingTag tag then
          { data with headingCounts :=
              fun k => if k = dat then data.headingCounts k + 1 else data.headingCounts k }
        else if tag = "a" then
          match firstHref attrs with
          | some href => categorizeLink href data baseURL
          | none => data
        else if tag = "form" then
          if isLoginForm nn then { data with hasLoginForm := true } else data
        else data
      else data
    let d2 :=
      if d1.htmlVersion = "" then { d1 with htmlVersion := detectHTMLVersion htmlContent }
      else d1
    walkNodeList children d2 baseURL htmlContent
def walkNodeList (l : NodeList) (data : CrawlData) (baseURL : NetURL) (htmlContent : String) : CrawlData :=
  match l with
  | .nil => data
  | .cons c cs => walkNodeList cs (walkNode c data baseURL htmlContent) baseURL htmlContent
end

/-! ### Network oracle, link accessibility, persistence model

Network effects are modelled by an oracle `Network` giving, for each
URL, the outcome of a HEAD probe and of a GET probe: `none` is a
transport error, `some c` is the final status code after redirects
(probing follows redirects transparently). -/

structure Network where
  headResp : String → Option Nat
  getResp : String → Option Nat

/-- Function `isLinkBroken` from the crawler: HEAD, falling back to GET on
error; broken when both error out or the final status is at least 400. -/
def isLinkBroken (net : Network) (link : String) : Bool :=
  match net.headResp link with
  | some c => decide (400 ≤ c)
  | none =>
    match net.getResp link with
    | some c => decide (400 ≤ c)
    | none => true

/-- Function `checkLinkAccessibility` from the crawler: concatenate internal and
external links, cap at the first 50, and collect the broken ones in
order (the inter-probe delay has no observable effect on the result). -/
def checkLinkAccessibility (net : Network) (internalLinks externalLinks : List String) : List String :=
  let allLinks := internalLinks ++ externalLinks
  let allLinks := if allLinks.length > 50 then allLinks.take 50 else allLinks
  allLinks.foldl (fun acc link => if isLinkBroken net link then acc ++ [link] else acc) []

/-! ### The persisted entities of `internal/models` used by the crawler -/

inductive CrawlStatus where
  | queued
  | running
  | completed
  | error
deriving Repr, DecidableEq

inductive LinkType where
  | internal
  | external
deriving Repr, DecidableEq

/-- The `models.URL` record fields the crawler reads and writes. -/
structure URLEntry where
  id : Nat
  url : String
  status : CrawlStatus
  errorMessage : String
deriving Repr, DecidableEq

/-- The `models.CrawlResult` aggregate written once per successful crawl. -/
structure CrawlResult where
  id : Nat
  urlID : Nat
  title : String
  htmlVersion : String
  hasLoginForm : Bool
  h1Count : Nat
  h2Count : Nat
  h3Count : Nat
  h4Count : Nat
  h5Count : Nat
  h6Count : Nat
  internalLinks : Nat
  externalLinks : Nat
  brokenLinks : Nat
deriving Repr, DecidableEq

/-- The `models.Link` per-link record written by `saveLinks`. -/
structure Link where
  crawlResultID : Nat
  url : String
  ltype : LinkType
  isBroken : Bool
deriving Repr, DecidableEq

/-- The URL truncation safeguard in `saveLinks`. -/
def truncateURL (link : String) : String :=
  if link.length > 500 then (link.data.take 497).asString ++ "..." else link

/-- One loop iteration of `saveLinks`: the stored URL is truncated, the
broken flag looks up the original URL in the broken set. -/
def mkLinkEntry (crawlResultID : Nat) (t : LinkType) (brokenLinks : List String) (link : String) : Link :=
  { crawlResultID := crawlResultID, url := truncateURL link, ltype := t,
    isBroken := brokenLinks.contains link }

/-- Function `saveLinks` from the crawler: the rows created for the internal
links followed by those for the external links. -/
def saveLinks (crawlResultID : Nat) (internalLinks externalLinks brokenLinks : List String) : List Link :=
  internalLinks.map (mkLinkEntry crawlResultID LinkType.internal brokenLinks)
    ++ externalLinks.map (mkLinkEntry crawlResultID LinkType.external brokenLinks)

/-! ### The orchestrator `CrawlURL` -/

/-- Outcome of the primary `client.Get` of `fetchAndAnalyze`: either a
transport-level error (network failure, timeout, redirect limit) with
its message, or a response with final status code, status text, parsed
document and raw body. -/
inductive FetchOutcome where
  | fetchErr (msg : String)
  | response (statusCode : Nat) (statusText : String) (doc : Node) (body : String)

/-- Function `fetchAndAnalyze` from the crawler: a transport error or a status
of 400 and above is a fetch failure and no analysis happens; otherwise
the parsed document is analysed by one `walkNode` traversal.  (Go
ignores the error of parsing `targetURL` as the base URL; the model
uses the zero URL then, as the crawler only reaches that case with a
parseable URL.) -/
def fetchAndAnalyze (outcome : FetchOutcome) (targetURL : String) : Except String CrawlData :=
  match outcome with
  | .fetchErr msg => .error ("failed to fetch URL: " ++ msg)
  | .response statusCode statusText doc body =>
    if 400 ≤ statusCode then
      .error ("HTTP error: " ++ toString statusCode ++ " " ++ statusText)
    else
      let baseURL := (urlParse targetURL).getD ⟨"", "", "", "", ""⟩
      .ok (walkNode doc initCrawlData baseURL body)

/-- The database state the crawler touches: the URL record being
crawled, the crawl-result rows and the link rows.  Persistence itself
is the external collaborator and is modelled as always succeeding. -/
structure DBState where
  urlEntry : URLEntry
  crawlResults : List CrawlResult
  links : List Link
  nextResultID : Nat

/-- Function `CrawlURL` from the crawler: set the record to running, fetch and
analyse, on failure store the error status and message and stop;
otherwise probe links, create the `CrawlResult` row, save the per-link
rows, and mark the record completed with a cleared error message.
Returns the final database state and the returned error, if any. -/
def crawlURL (net : Network) (outcome : FetchOutcome) (db : DBState) : DBState × Option String :=
  let e := { db.urlEntry with status := CrawlStatus.running }
  let db1 := { db with urlEntry := e }
  match fetchAndAnalyze outcome e.url with
  | .error msg =>
    ({ db1 with urlEntry := { e with status := CrawlStatus.error, errorMessage := msg } },
      some msg)
  | .ok crawlData =>
    let brokenLinks := checkLinkAccessibility net crawlData.internalLinks crawlData.externalLinks
    let resultID := db1.nextResultID
    let crawlResult : CrawlResult :=
      { id := resultID, urlID := e.id,
        title := crawlData.title, htmlVersion := crawlData.htmlVersion,
        hasLoginForm := crawlData.hasLoginForm,
        h1Count := crawlData.headingCounts "h1",
        h2Count := crawlData.headingCounts "h2",
        h3Count := crawlData.headingCounts "h3",
        h4Count := crawlData.headingCounts "h4",
        h5Count := crawlData.headingCounts "h5",
        h6Count := crawlData.headingCounts "h6",
        internalLinks := crawlData.internalLinks.length,
        externalLinks := crawlData.externalLinks.length,
        brokenLinks := brokenLinks.length }
    let db2 := { db1 with
      crawlResults := db1.crawlResults ++ [crawlResult],
      nextResultID := resultID + 1 }
    let db3 := { db2 with
      links := db2.links ++ saveLinks resultID crawlData.internalLinks crawlData.externalLinks brokenLinks }
    ({ db3 with urlEntry := { e with status := CrawlStatus.completed, errorMessage := "" } },
      none)

/-! ### Specification-side definitions

These definitions follow the wording of the specification (sections
4.3–4.6 and the testable properties); the theorems below relate them to
the embedded source functions. -/

/-- Outcome of the link classification contract of the spec. -/
inductive LinkClass where
  | ignored
  | internalLink (u : String)
  | externalLink (u : String)
deriving Repr, DecidableEq

/-- The classification rule as the spec words it: empty, fragment-only
and javascript hrefs are ignored; a href that fails to parse is
silently ignored; otherwise the href is resolved against the base URL
and is internal when the resolved host equals the base host or is
empty, external otherwise. -/
def classifyHref (href : String) (baseURL : NetURL) : LinkClass :=
  if href = "" || strHasPre href "#" || strHasPre href "javascript:" then .ignored
  else
    match urlParse href with
    | none => .ignored
    | some u =>
      let r := resolveReference baseURL u
      if r.host = baseURL.host ∨ r.host = "" then .internalLink (urlString r)
      else .externalLink (urlString r)

/-- Effect of one classification on the accumulator: an ignored href
leaves both sequences unchanged, otherwise the resolved URL is
appended to the corresponding sequence. -/
def applyLinkClass (data : CrawlData) : LinkClass → CrawlData
  | .ignored => data
  | .internalLink u => { data with internalLinks := data.internalLinks ++ [u] }
  | .externalLink u => { data with externalLinks := data.externalLinks ++ [u] }

/-- The final status a probe observes: the HEAD status when the HEAD
probe succeeds, otherwise the GET status; `none` when both error out. -/
def effectiveStatus (net : Network) (link : String) : Option Nat :=
  match net.headResp link with
  | some c => some c
  | none => net.getResp link

/-- The links the accessibility checker probes: the first 50 entries of
the internal-then-external concatenation (lines 274-280 of the
crawler). -/
def probedLinks (internalLinks externalLinks : List String) : List String :=
  let allLinks := internalLinks ++ externalLinks
  if allLinks.length > 50 then allLinks.take 50 else allLinks

/-- Absence of every doctype/version marker the detector looks for. -/
def noDoctypeFragment (body : String) : Bool :=
  let t := strToLower body
  !(strContains t "<!doctype html>") && !(strContains t "html 4.01") &&
    !(strContains t "xhtml 1.0") && !(strContains t "xhtml 1.1") &&
    !(doctypeReMatch t)

/-- The version-detection contract as the spec words it: ordered
first-match-wins checks over the case-folded document text. -/
def detectVersionSpec (body : String) : String :=
  let t := strToLower body
  if strContains t "<!doctype html>" then "HTML5"
  else if strContains t "html 4.01" then "HTML 4.01"
  else if strContains t "xhtml 1.0" then "XHTML 1.0"
  else if strContains t "xhtml 1.1" then "XHTML 1.1"
  else if doctypeReMatch t then "HTML"
  else "Unknown"

/-! ### Helper lemmas -/

/-- Helper: `categorizeLink` only ever touches the two link sequences. -/
theorem categorizeLink_fields (href : String) (data : CrawlData) (base : NetURL) :
    (categorizeLink href data base).title = data.title
    ∧ (categorizeLink href data base).htmlVersion = data.htmlVersion
    ∧ (categorizeLink href data base).hasLoginForm = data.hasLoginForm
    ∧ (categorizeLink href data base).headingCounts = data.headingCounts := by
  unfold categorizeLink
  split
  · exact ⟨rfl, rfl, rfl, rfl⟩
  · cases urlParse href with
    | none => exact ⟨rfl, rfl, rfl, rfl⟩
    | some u =>
      dsimp only
      split <;> exact ⟨rfl, rfl, rfl, rfl⟩

/-- The collecting fold of `checkLinkAccessibility` is a filter. -/
theorem foldl_collect_eq_filter (p : String → Bool) (l acc : List String) :
    l.foldl (fun acc link => if p link then acc ++ [link] else acc) acc
      = acc ++ l.filter p := by
  induction l generalizing acc with
  | nil => simp
  | cons x xs ih =>
    cases hx : p x <;> simp [List.filter_cons, hx, ih]

/-- Helper: `checkLinkAccessibility` filters the 50-link probe window. -/
theorem checkLinkAccessibility_eq (net : Network) (internalLinks externalLinks : List String) :
    checkLinkAccessibility net internalLinks externalLinks
      = ((internalLinks ++ externalLinks).take 50).filter (isLinkBroken net) := by
  unfold checkLinkAccessibility
  rcases le_or_lt (internalLinks ++ externalLinks).length 50 with h | h
  · simp only [foldl_collect_eq_filter, List.nil_append]
    rw [if_neg (by omega), List.take_of_length_le h]
  · simp only [foldl_collect_eq_filter, List.nil_append]
    rw [if_pos (by omega)]

/-! ### Claim theorems: link classification and accessibility -/

/-- C1: for every anchor href and base URL, an empty, fragment-only or
javascript href leaves both link sequences unchanged; every other href
that parses is resolved against the base URL and the resolved URL is
appended to the internal sequence when its host equals the base host or
is empty, otherwise to the external sequence; a href that fails to
parse leaves both sequences unchanged. -/
theorem categorizeLink_follows_classification (href : String) (baseURL : NetURL) (data : CrawlData) :
    categorizeLink href data baseURL = applyLinkClass data (classifyHref href baseURL) := by
  unfold categorizeLink classifyHref
  split
  · rfl
  · cases urlParse href with
    | none => rfl
    | some u =>
      dsimp only
      split <;> rfl

/-- C4: the accessibility checker result is the broken-link filter of
the first 50 entries of the internal-then-external concatenation
(duplicates included), and a probed link is broken exactly when the
final observed status is at least 400 or both the HEAD and the fallback
GET probes error out. -/
theorem checkLinkAccessibility_cap_and_broken_iff (net : Network)
    (internalLinks externalLinks : List String) :
    checkLinkAccessibility net internalLinks externalLinks
        = ((internalLinks ++ externalLinks).take 50).filter (isLinkBroken net)
      ∧ (∀ link, isLinkBroken net link = true ↔
          ((∃ c, effectiveStatus net link = some c ∧ 400 ≤ c)
            ∨ effectiveStatus net link = none))
      ∧ (∀ link, link ∈ checkLinkAccessibility net internalLinks externalLinks ↔
          (link ∈ (internalLinks ++ externalLinks).take 50 ∧ isLinkBroken net link = true)) := by
  refine ⟨checkLinkAccessibility_eq net internalLinks externalLinks, ?_, ?_⟩
  · intro link
    unfold isLinkBroken effectiveStatus
    cases hh : net.headResp link with
    | some c => simp
    | none =>
      cases hg : net.getResp link with
      | some c => simp
      | none => simp
  · intro link
    rw [checkLinkAccessibility_eq]
    exact List.mem_filter

/-- C9: every URL in the broken-link set lies in the first 50 entries
of the internal-then-external concatenation, and the broken-link count
never exceeds the minimum of 50 and the total number of links. -/
theorem brokenLinks_within_window (net : Network) (internalLinks externalLinks : List String) :
    checkLinkAccessibility net internalLinks externalLinks
        ⊆ (internalLinks ++ externalLinks).take 50
      ∧ (checkLinkAccessibility net internalLinks externalLinks).length
          ≤ min 50 (internalLinks ++ externalLinks).length := by
  rw [checkLinkAccessibility_eq]
  constructor
  · exact (List.filter_sublist _).subset
  · calc (((internalLinks ++ externalLinks).take 50).filter (isLinkBroken net)).length
        ≤ ((internalLinks ++ externalLinks).take 50).length := List.length_filter_le _ _
    _ = min 50 (internalLinks ++ externalLinks).length := List.length_take 50 _

/-! ### Claim theorems: version detection and link persistence -/

/-- C6: the version detector performs the ordered
first-match-wins checks over the case-folded document text, and in
particular returns Unknown for every body containing no doctype or
version fragment. -/
theorem detectHTMLVersion_matches_spec (body : String) :
    detectHTMLVersion body = detectVersionSpec body
    ∧ (noDoctypeFragment body = true → detectHTMLVersion body = "Unknown") := by
  constructor
  · rfl
  · intro h
    unfold noDoctypeFragment at h
    simp only [Bool.and_eq_true, Bool.not_eq_true'] at h
    obtain ⟨⟨⟨⟨h1, h2⟩, h3⟩, h4⟩, h5⟩ := h
    unfold detectHTMLVersion
    simp only [h1, h2, h3, h4, h5, if_false, Bool.false_eq_true]

/-- C6 witness: a body with no doctype fragment yields Unknown. -/
theorem detectHTMLVersion_matches_spec_witness :
    noDoctypeFragment "plain body" = true ∧ detectHTMLVersion "plain body" = "Unknown" :=
  ⟨by decide, (detectHTMLVersion_matches_spec "plain body").2 (by decide)⟩

/-- C10: every persisted per-link record stores the URL truncated to
its first 497 characters plus an ellipsis exactly when the URL exceeds
500 characters (verbatim otherwise), while its broken flag is looked up
under the original untruncated URL; and every discovered link gets such
a record. -/
theorem saveLinks_truncates_stored_url (cid : Nat)
    (internalLinks externalLinks brokenLinks : List String) :
    (∀ rec ∈ saveLinks cid internalLinks externalLinks brokenLinks,
      ∃ l, (l ∈ internalLinks ∨ l ∈ externalLinks)
        ∧ rec.url = (if 500 < l.length then (l.data.take 497).asString ++ "..." else l)
        ∧ rec.isBroken = brokenLinks.contains l)
    ∧ (∀ l ∈ internalLinks ++ externalLinks,
        ∃ rec ∈ saveLinks cid internalLinks externalLinks brokenLinks,
          rec.url = (if 500 < l.length then (l.data.take 497).asString ++ "..." else l)
          ∧ rec.isBroken = brokenLinks.contains l) := by
  constructor
  · intro rec hrec
    rcases List.mem_append.mp hrec with h | h
    · obtain ⟨l, hl, rfl⟩ := List.mem_map.mp h
      exact ⟨l, Or.inl hl, rfl, rfl⟩
    · obtain ⟨l, hl, rfl⟩ := List.mem_map.mp h
      exact ⟨l, Or.inr hl, rfl, rfl⟩
  · intro l hl
    rcases List.mem_append.mp hl with h | h
    · exact ⟨mkLinkEntry cid LinkType.internal brokenLinks l,
        List.mem_append_left _ (List.mem_map_of_mem _ h), rfl, rfl⟩
    · exact ⟨mkLinkEntry cid LinkType.external brokenLinks l,
        List.mem_append_right _ (List.mem_map_of_mem _ h), rfl, rfl⟩

set_option maxRecDepth 8000 in
/-- C10 witness: a 501-character URL is stored truncated with the
broken flag of the original URL, a short URL verbatim. -/
theorem saveLinks_truncates_stored_url_witness :
    (⟨List.replicate 501 'a'⟩ : String) ∈ ([⟨List.replicate 501 'a'⟩] ++ ["https://s.com/x"])
    ∧ ∃ rec ∈ saveLinks 1 [⟨List.replicate 501 'a'⟩] ["https://s.com/x"] [⟨List.replicate 501 'a'⟩],
        rec.url = (if 500 < (⟨List.replicate 501 'a'⟩ : String).length
            then ((⟨List.replicate 501 'a'⟩ : String).data.take 497).asString ++ "..."
            else (⟨List.replicate 501 'a'⟩ : String))
        ∧ rec.isBroken = List.contains [(⟨List.replicate 501 'a'⟩ : String)] (⟨List.replicate 501 'a'⟩ : String) :=
  ⟨by decide,
    (saveLinks_truncates_stored_url 1 [⟨List.replicate 501 'a'⟩] ["https://s.com/x"]
      [⟨List.replicate 501 'a'⟩]).2 ⟨List.replicate 501 'a'⟩ (by decide)⟩

/-! ### Tree quantifiers and the login-form characterisation -/

mutual
/-- Some node of the subtree (the node itself included) satisfies `p`. -/
def existsNode (p : Node → Bool) : Node → Bool
  | .mk t d a ch => p (.mk t d a ch) || existsNodeList p ch
def existsNodeList (p : Node → Bool) : NodeList → Bool
  | .nil => false
  | .cons c cs => existsNode p c || existsNodeList p cs
end

mutual
/-- Every node of the subtree satisfies `p`. -/
def allNodes (p : Node → Bool) : Node → Bool
  | .mk t d a ch => p (.mk t d a ch) && allNodesList p ch
def allNodesList (p : Node → Bool) : NodeList → Bool
  | .nil => true
  | .cons c cs => allNodes p c && allNodesList p cs
end

/-- Some strict descendant of the node satisfies `p`. -/
def existsDescendant (p : Node → Bool) (n : Node) : Bool :=
  existsNodeList p n.children

/-- Markup-parser well-formedness: a node carries no duplicate
attribute keys (the HTML tokenizer drops duplicate attributes). -/
def nodupAttrKeys (n : Node) : Bool :=
  match n with
  | .mk _ _ attrs _ => decide ((attrs.map Attribute.key).Nodup)

/-- Spec 4.4: an input element whose type attribute case-insensitively
equals password. -/
def isPasswordInput (n : Node) : Bool :=
  match n with
  | .mk t d attrs _ =>
    (t = NodeType.elementNode && d = "input")
      && attrs.any (fun a => a.key = "type" && (strToLower a.val == "password"))

/-- Spec 4.4: an input element whose name attribute case-insensitively
contains user, email or login, or whose type attribute equals email. -/
def isIdentifierInput (n : Node) : Bool :=
  match n with
  | .mk t d attrs _ =>
    (t = NodeType.elementNode && d = "input")
      && (attrs.any (fun a => a.key = "name"
            && (strContains (strToLower a.val) "user" || strContains (strToLower a.val) "email"
                || strContains (strToLower a.val) "login"))
          || attrs.any (fun a => a.key = "type" && (strToLower a.val == "email")))

/-- A last-wins attribute fold over keys absent from the list keeps its
accumulator. -/
theorem foldl_keyval_of_no_key (k : String) (attrs : List Attribute) (s : String)
    (h : ∀ a ∈ attrs, a.key ≠ k) :
    attrs.foldl (fun s a => if a.key = k then strToLower a.val else s) s = s := by
  induction attrs generalizing s with
  | nil => rfl
  | cons a rest ih =>
    have hk : a.key ≠ k := h a (List.mem_cons_self a rest)
    simp only [List.foldl_cons, if_neg hk]
    exact ih s (fun b hb => h b (List.mem_cons_of_mem a hb))

/-- Without duplicate keys, a predicate of the last-wins attribute value
for key `k` equals an existential scan of the attributes, provided the
predicate rejects the empty default. -/
theorem foldl_keyval_pred_eq_any (k : String) (q : String → Bool) (attrs : List Attribute)
    (hnd : (attrs.map Attribute.key).Nodup) (hq : q "" = false) :
    q (attrs.foldl (fun s a => if a.key = k then strToLower a.val else s) "")
      = attrs.any (fun a => a.key = k && q (strToLower a.val)) := by
  induction attrs with
  | nil => simpa using hq
  | cons a rest ih =>
    rw [List.map_cons, List.nodup_cons] at hnd
    by_cases hk : a.key = k
    · have hrest : ∀ b ∈ rest, b.key ≠ k := by
        intro b hb hbk
        apply hnd.1
        have hmem : b.key ∈ List.map Attribute.key rest := List.mem_map_of_mem Attribute.key hb
        rwa [hbk, ← hk] at hmem
      rw [List.foldl_cons, if_pos hk, foldl_keyval_of_no_key k rest _ hrest,
        List.any_cons]
      have hany : rest.any (fun a => a.key = k && q (strToLower a.val)) = false := by
        rw [List.any_eq_false]
        intro b hb
        simp [hrest b hb]
      rw [hany, hk]
      simp
    · rw [List.foldl_cons, if_neg hk, List.any_cons, ih hnd.2]
      simp [hk]

/-- Without duplicate keys, the last-wins type check of the code agrees
with the existential password check of the spec. -/
theorem pw_bridge (attrs : List Attribute) (hnd : (attrs.map Attribute.key).Nodup) :
    (inputTypeOf attrs == "password")
      = attrs.any (fun a => a.key = "type" && (strToLower a.val == "password")) := by
  have h := foldl_keyval_pred_eq_any "type" (fun s => s == "password") attrs hnd (by decide)
  simpa [inputTypeOf] using h

/-- Without duplicate keys, the last-wins identifier check of the code
agrees with the existential identifier check of the spec. -/
theorem id_bridge (attrs : List Attribute) (hnd : (attrs.map Attribute.key).Nodup) :
    (strContains (inputNameOf attrs) "user" || strContains (inputNameOf attrs) "email"
      || strContains (inputNameOf attrs) "login" || (inputTypeOf attrs == "email"))
      = (attrs.any (fun a => a.key = "name"
            && (strContains (strToLower a.val) "user" || strContains (strToLower a.val) "email"
                || strContains (strToLower a.val) "login"))
          || attrs.any (fun a => a.key = "type" && (strToLower a.val == "email"))) := by
  have h1 := foldl_keyval_pred_eq_any "name"
    (fun s => strContains s "user" || strContains s "email" || strContains s "login") attrs hnd (by decide)
  have h2 := foldl_keyval_pred_eq_any "type" (fun s => s == "email") attrs hnd (by decide)
  simp only [inputNameOf, inputTypeOf]
  simp only at h1 h2
  rw [← h1, ← h2]

mutual
/-- Helper: the `walkFormNode` accumulator equals the OR of the incoming state
with the two existential subtree scans of the spec. -/
theorem loginScan_eq : ∀ (n : Node) (st : Bool × Bool), allNodes nodupAttrKeys n = true →
    loginScan n st = (st.1 || existsNode isPasswordInput n, st.2 || existsNode isIdentifierInput n)
  | .mk t d attrs ch, st, h => by
    rw [allNodes, Bool.and_eq_true] at h
    obtain ⟨hself, hch⟩ := h
    simp only [loginScan]
    rw [loginScanList_eq ch _ hch]
    simp only [existsNode]
    by_cases hc : t = NodeType.elementNode ∧ d = "input"
    · rw [if_pos hc]
      have hnd : (attrs.map Attribute.key).Nodup := by
        rw [nodupAttrKeys] at hself
        exact of_decide_eq_true hself
      have hp : isPasswordInput (.mk t d attrs ch)
          = attrs.any (fun a => a.key = "type" && (strToLower a.val == "password")) := by
        simp only [isPasswordInput, hc.1, hc.2]
        simp
      have hi : isIdentifierInput (.mk t d attrs ch)
          = (attrs.any (fun a => a.key = "name"
                && (strContains (strToLower a.val) "user" || strContains (strToLower a.val) "email"
                    || strContains (strToLower a.val) "login"))
              || attrs.any (fun a => a.key = "type" && (strToLower a.val == "email"))) := by
        simp only [isIdentifierInput, hc.1, hc.2]
        simp
      rw [hp, hi, ← pw_bridge attrs hnd, ← id_bridge attrs hnd]
      simp [Bool.or_assoc]
    · rw [if_neg hc]
      have hfalse : (decide (t = NodeType.elementNode) && decide (d = "input")) = false := by
        rcases Classical.em (t = NodeType.elementNode) with h1 | h1
        · have h2 : d ≠ "input" := fun h2 => hc ⟨h1, h2⟩
          simp [h2]
        · simp [h1]
      have hp : isPasswordInput (.mk t d attrs ch) = false := by
        simp only [isPasswordInput, hfalse, Bool.false_and]
      have hi : isIdentifierInput (.mk t d attrs ch) = false := by
        simp only [isIdentifierInput, hfalse, Bool.false_and]
      rw [hp, hi]
      simp
theorem loginScanList_eq : ∀ (l : NodeList) (st : Bool × Bool), allNodesList nodupAttrKeys l = true →
    loginScanList l st
      = (st.1 || existsNodeList isPasswordInput l, st.2 || existsNodeList isIdentifierInput l)
  | .nil, st, _ => by
    simp [loginScanList, existsNodeList]
  | .cons c cs, st, h => by
    rw [allNodesList, Bool.and_eq_true] at h
    obtain ⟨hc, hcs⟩ := h
    simp only [loginScanList]
    rw [loginScan_eq c st hc, loginScanList_eq cs _ hcs]
    simp only [existsNodeList]
    simp [Bool.or_assoc]
end

/-- C3: a form subtree is reported a login form exactly when some
descendant input has a password type attribute and some descendant
input carries a user/email/login name or an email type; in particular a
form with only a password input is not a login form. -/
theorem isLoginForm_iff_signals (formNode : Node)
    (hform : formNode.data = "form")
    (hwf : allNodes nodupAttrKeys formNode = true) :
    isLoginForm formNode = true ↔
      (existsDescendant isPasswordInput formNode = true
        ∧ existsDescendant isIdentifierInput formNode = true) := by
  cases formNode with
  | mk t d attrs ch =>
    simp only [Node.data] at hform
    subst hform
    rw [isLoginForm, loginScan_eq _ _ hwf]
    simp only [existsNode, existsDescendant, Node.children]
    have hp : isPasswordInput (.mk t "form" attrs ch) = false := by
      simp [isPasswordInput]
    have hi : isIdentifierInput (.mk t "form" attrs ch) = false := by
      simp [isIdentifierInput]
    rw [hp, hi]
    simp

/-- Builders for concrete markup trees used in witnesses. -/
def mkText (s : String) : Node :=
  Node.mk NodeType.textNode s [] NodeList.nil

def mkElem (tag : String) (attrs : List Attribute) (children : List Node) : Node :=
  Node.mk NodeType.elementNode tag attrs
    (children.foldr (fun n acc => NodeList.cons n acc) NodeList.nil)

/-- A concrete login form: a username input and a password input. -/
def loginFormEx : Node :=
  mkElem "form" []
    [mkElem "input" [⟨"type", "text"⟩, ⟨"name", "username"⟩] [],
      mkElem "input" [⟨"type", "password"⟩, ⟨"name", "pwd"⟩] []]

set_option maxRecDepth 4000 in
/-- C3 witness: the concrete form satisfies the characterisation. -/
theorem isLoginForm_iff_signals_witness :
    loginFormEx.data = "form" ∧ allNodes nodupAttrKeys loginFormEx = true
    ∧ (isLoginForm loginFormEx = true ↔
        (existsDescendant isPasswordInput loginFormEx = true
          ∧ existsDescendant isIdentifierInput loginFormEx = true)) :=
  ⟨rfl, by decide, isLoginForm_iff_signals loginFormEx rfl (by decide)⟩

/-! ### Claim theorem: the fetch-failure path of the orchestrator -/

/-- C5: when the fetch fails (transport error, which covers network
failures, timeouts and the redirect limit, or an HTTP status of 400 and
above), the URL record moves to the error status with the failure
message attached, and neither a crawl-result row nor any per-link row
is persisted; the body is never analysed. -/
theorem crawlURL_fetch_failure (net : Network) (outcome : FetchOutcome) (db : DBState)
    (h : (∃ m, outcome = FetchOutcome.fetchErr m)
      ∨ (∃ s st doc body, outcome = FetchOutcome.response s st doc body ∧ 400 ≤ s)) :
    ∃ msg, crawlURL net outcome db
        = ({ db with urlEntry :=
              { db.urlEntry with status := CrawlStatus.error, errorMessage := msg } },
            some msg) := by
  have herr : ∃ msg, fetchAndAnalyze outcome db.urlEntry.url = Except.error msg := by
    rcases h with ⟨m, rfl⟩ | ⟨s, st, doc, body, rfl, hs⟩
    · exact ⟨_, rfl⟩
    · refine ⟨"HTTP error: " ++ toString s ++ " " ++ st, ?_⟩
      simp only [fetchAndAnalyze]
      rw [if_pos hs]
  obtain ⟨msg, hmsg⟩ := herr
  refine ⟨msg, ?_⟩
  unfold crawlURL
  dsimp only
  rw [hmsg]

/-- C5 witness: a concrete failed fetch leaves only the error status
and message behind. -/
theorem crawlURL_fetch_failure_witness :
    (∃ m, FetchOutcome.fetchErr "connection refused" = FetchOutcome.fetchErr m)
    ∧ ∃ msg,
        crawlURL ⟨fun _ => none, fun _ => none⟩ (FetchOutcome.fetchErr "connection refused")
            ⟨⟨7, "https://example.com", CrawlStatus.queued, ""⟩, [], [], 1⟩
          = ({ (⟨⟨7, "https://example.com", CrawlStatus.queued, ""⟩, [], [], 1⟩ : DBState) with
                urlEntry := { (⟨7, "https://example.com", CrawlStatus.queued, ""⟩ : URLEntry) with
                  status := CrawlStatus.error, errorMessage := msg } },
              some msg) :=
  ⟨⟨"connection refused", rfl⟩,
    crawlURL_fetch_failure ⟨fun _ => none, fun _ => none⟩
      (FetchOutcome.fetchErr "connection refused")
      ⟨⟨7, "https://example.com", CrawlStatus.queued, ""⟩, [], [], 1⟩
      (Or.inl ⟨"connection refused", rfl⟩)⟩

/-! ### Heading counts: the walk adds exactly one per heading element -/

mutual
/-- Number of h1-h6 element nodes in the (sub)tree. -/
def countHeadings : Node → Nat
  | .mk t d _ ch =>
    (if t = NodeType.elementNode ∧ isHeadingTag d = true then 1 else 0) + countHeadingsList ch
def countHeadingsList : NodeList → Nat
  | .nil => 0
  | .cons c cs => countHeadings c + countHeadingsList cs
end

/-- The quantity of testable property 1: the sum of the six per-level
heading counters. -/
def headingSum (m : String → Nat) : Nat :=
  m "h1" + m "h2" + m "h3" + m "h4" + m "h5" + m "h6"

/-- Markup-parser well-formedness: element names come out of the
tokenizer lowercased. -/
def lowerElemName (n : Node) : Bool :=
  match n with
  | .mk t d _ _ => !(t = NodeType.elementNode) || (strToLower d == d)

/-- Incrementing the counter of one heading key raises the sum by one. -/
theorem headingSum_update (m : String → Nat) (dat : String) (h : isHeadingTag dat = true) :
    headingSum (fun k => if k = dat then m k + 1 else m k) = headingSum m + 1 := by
  rw [isHeadingTag] at h
  simp only [Bool.or_eq_true, decide_eq_true_eq] at h
  rcases h with ((((h | h) | h) | h) | h) | h <;> subst h <;> simp [headingSum] <;> omega

/-- The version-detection step of `walkNode` touches only the
`htmlVersion` field. -/
theorem versionStep_fields (x : CrawlData) (raw : String) :
    (((if x.htmlVersion = "" then { x with htmlVersion := detectHTMLVersion raw } else x) : CrawlData).title = x.title)
    ∧ (((if x.htmlVersion = "" then { x with htmlVersion := detectHTMLVersion raw } else x) : CrawlData).headingCounts = x.headingCounts) := by
  constructor <;> split <;> rfl

mutual
/-- The traversal adds the subtree heading count to the sum of the
accumulator counters, provided element names are lowercased. -/
theorem walk_headingSum : ∀ (n : Node) (data : CrawlData) (base : NetURL) (raw : String),
    allNodes lowerElemName n = true →
    headingSum (walkNode n data base raw).headingCounts
      = headingSum data.headingCounts + countHeadings n
  | .mk t d attrs ch, data, base, raw, h => by
    rw [allNodes, Bool.and_eq_true] at h
    obtain ⟨hself, hch⟩ := h
    simp only [walkNode, countHeadings]
    rw [walkList_headingSum ch _ base raw hch]
    rw [(versionStep_fields _ raw).2]
    by_cases ht : t = NodeType.elementNode
    · subst ht
      have hd : strToLower d = d := by
        simpa [lowerElemName] using hself
      rw [if_pos rfl]
      by_cases h1 : strToLower d = "title"
      · rw [if_pos h1]
        have hd1 : d = "title" := by rw [← hd, h1]
        have hnh : ¬ (NodeType.elementNode = NodeType.elementNode ∧ isHeadingTag d = true) := by
          intro hc
          rw [hd1] at hc
          exact absurd hc.2 (by decide)
        rw [if_neg hnh]
        cases ch with
        | nil => dsimp only; omega
        | cons fc rest => dsimp only; omega
      · rw [if_neg h1]
        by_cases h2 : isHeadingTag (strToLower d) = true
        · rw [if_pos h2]
          have h2' : isHeadingTag d = true := by rwa [hd] at h2
          rw [if_pos ⟨rfl, h2'⟩]
          dsimp only
          rw [headingSum_update data.headingCounts d h2']
          omega
        · rw [if_neg h2]
          have hnh : ¬ (NodeType.elementNode = NodeType.elementNode ∧ isHeadingTag d = true) := by
            intro hc
            exact h2 (by rw [hd]; exact hc.2)
          rw [if_neg hnh]
          by_cases h3 : strToLower d = "a"
          · rw [if_pos h3]
            cases hf : firstHref attrs with
            | some href =>
              dsimp only
              rw [(categorizeLink_fields href data base).2.2.2]
              omega
            | none => dsimp only; omega
          · rw [if_neg h3]
            by_cases h4 : strToLower d = "form"
            · rw [if_pos h4]
              split
              · dsimp only; omega
              · omega
            · rw [if_neg h4]
              omega
    · rw [if_neg ht]
      rw [if_neg (fun hc => ht hc.1)]
      omega
theorem walkList_headingSum : ∀ (l : NodeList) (data : CrawlData) (base : NetURL) (raw : String),
    allNodesList lowerElemName l = true →
    headingSum (walkNodeList l data base raw).headingCounts
      = headingSum data.headingCounts + countHeadingsList l
  | .nil, data, base, raw, _ => by
    simp [walkNodeList, countHeadingsList]
  | .cons c cs, data, base, raw, h => by
    rw [allNodesList, Bool.and_eq_true] at h
    obtain ⟨hc, hcs⟩ := h
    simp only [walkNodeList, countHeadingsList]
    rw [walkList_headingSum cs _ base raw hcs, walk_headingSum c data base raw hc]
    omega
end

/-- C2: for every parsed markup tree (element names lowercased by the
tokenizer), the six heading counters of the analysis sum to the number
of h1-h6 element nodes in the tree, independent of nesting and
attributes. -/
theorem headingSum_walk_eq_count (n : Node) (base : NetURL) (raw : String)
    (h : allNodes lowerElemName n = true) :
    headingSum (walkNode n initCrawlData base raw).headingCounts = countHeadings n := by
  rw [walk_headingSum n initCrawlData base raw h]
  simp [initCrawlData, headingSum]

/-- A concrete tree with three headings at different depths. -/
def headingsEx : Node :=
  mkElem "html" []
    [mkElem "h1" [⟨"class", "big"⟩] [mkText "a"],
      mkElem "div" [] [mkElem "h2" [] [], mkElem "section" [] [mkElem "h2" [] [mkText "b"]]]]

set_option maxRecDepth 8000 in
set_option maxHeartbeats 2000000 in
/-- C2 witness: the concrete tree satisfies the heading-sum property. -/
theorem headingSum_walk_eq_count_witness :
    allNodes lowerElemName headingsEx = true
    ∧ headingSum (walkNode headingsEx initCrawlData ⟨"https", "site.com", "/", "", ""⟩ "").headingCounts
        = countHeadings headingsEx :=
  ⟨by decide, headingSum_walk_eq_count headingsEx ⟨"https", "site.com", "/", "", ""⟩ "" (by decide)⟩

/-! ### Title extraction: the last title wins -/

/-- Contribution of a node itself to the title: the trimmed text of its
first child when the node is a title element with a child. -/
def selfTitleText (t : NodeType) (d : String) (ch : NodeList) : Option String :=
  if t = NodeType.elementNode ∧ strToLower d = "title" then
    match ch with
    | .cons fc _ => some (strTrim fc.data)
    | .nil => none
  else none

mutual
/-- The trimmed first-child text of the last title element (among those
having a child) in traversal order, if any. -/
def lastTitleText : Node → Option String
  | .mk t d _ ch =>
    match lastTitleTextList ch with
    | some s => some s
    | none => selfTitleText t d ch
def lastTitleTextList : NodeList → Option String
  | .nil => none
  | .cons c cs =>
    match lastTitleTextList cs with
    | some s => some s
    | none => lastTitleText c
end

mutual
/-- Modelled from the spec (section 4.2): the trimmed text of the first
title element encountered in the traversal (a childless title element
contributes nothing). -/
def firstTitleText : Node → Option String
  | .mk t d _ ch =>
    match selfTitleText t d ch with
    | some s => some s
    | none => firstTitleTextList ch
def firstTitleTextList : NodeList → Option String
  | .nil => none
  | .cons c cs =>
    match firstTitleText c with
    | some s => some s
    | none => firstTitleTextList cs
end

mutual
/-- The final title of the traversal: the last title text of the subtree if there
is one, else the incoming accumulator title. -/
theorem walk_title : ∀ (n : Node) (data : CrawlData) (base : NetURL) (raw : String),
    (walkNode n data base raw).title = (lastTitleText n).getD data.title
  | .mk t d attrs ch, data, base, raw => by
    simp only [walkNode, lastTitleText]
    rw [walkList_title ch _ base raw]
    rw [(versionStep_fields _ raw).1]
    cases hl : lastTitleTextList ch with
    | some s => simp
    | none =>
      simp only [Option.getD]
      by_cases ht : t = NodeType.elementNode
      · rw [if_pos ht]
        by_cases h1 : strToLower d = "title"
        · rw [if_pos h1]
          rw [selfTitleText.eq_def, if_pos ⟨ht, h1⟩]
          cases ch with
          | nil => simp
          | cons fc rest => simp
        · rw [if_neg h1]
          have hsel : ¬ (t = NodeType.elementNode ∧ strToLower d = "title") :=
            fun hc => h1 hc.2
          rw [selfTitleText.eq_def, if_neg hsel]
          by_cases h2 : isHeadingTag (strToLower d) = true
          · rw [if_pos h2]
          · rw [if_neg h2]
            by_cases h3 : strToLower d = "a"
            · rw [if_pos h3]
              cases hf : firstHref attrs with
              | some href =>
                dsimp only
                rw [(categorizeLink_fields href data base).1]
              | none => simp
            · rw [if_neg h3]
              by_cases h4 : strToLower d = "form"
              · rw [if_pos h4]
                split <;> simp
              · rw [if_neg h4]
      · rw [if_neg ht]
        have hsel : ¬ (t = NodeType.elementNode ∧ strToLower d = "title") :=
          fun hc => ht hc.1
        rw [selfTitleText.eq_def, if_neg hsel]
theorem walkList_title : ∀ (l : NodeList) (data : CrawlData) (base : NetURL) (raw : String),
    (walkNodeList l data base raw).title = (lastTitleTextList l).getD data.title
  | .nil, data, base, raw => by
    simp [walkNodeList, lastTitleTextList]
  | .cons c cs, data, base, raw => by
    simp only [walkNodeList, lastTitleTextList]
    rw [walkList_title cs _ base raw, walk_title c data base raw]
    cases hl : lastTitleTextList cs with
    | some s => simp
    | none => simp
end

/-- C7 (amended): the analysis title equals the trimmed first-child
text of the last title element (among those having a child)
encountered in the traversal; with no such element it stays empty. -/
theorem title_eq_last_title (n : Node) (base : NetURL) (raw : String) :
    (walkNode n initCrawlData base raw).title = (lastTitleText n).getD "" := by
  rw [walk_title n initCrawlData base raw]
  rfl


/-- A page with two title elements carrying different texts. -/
def twoTitlesEx : Node :=
  mkElem "html" []
    [mkElem "head" [] [mkElem "title" [] [mkText " A "]],
      mkElem "title" [] [mkText "B"]]

set_option maxRecDepth 8000 in
/-- C7 counterexample: the trimmed text of the first title is A, but the
traversal reports B, the text of the last title element. -/
theorem title_not_first_title_counterexample :
    firstTitleText twoTitlesEx = some "A"
    ∧ (walkNode twoTitlesEx initCrawlData ⟨"https", "site.com", "/", "", ""⟩ "").title = "B"
    ∧ (walkNode twoTitlesEx initCrawlData ⟨"https", "site.com", "/", "", ""⟩ "").title
        ≠ (firstTitleText twoTitlesEx).getD "" := by
  have hB : (walkNode twoTitlesEx initCrawlData ⟨"https", "site.com", "/", "", ""⟩ "").title = "B" := by
    rw [walk_title]
    decide
  refine ⟨by decide, hB, ?_⟩
  rw [hB]
  decide

/-! ### Links beyond the 50-entry probe cap -/

/-- C8: with more than 50 pairwise-distinct discovered links, exactly
the first 50 entries of the internal-then-external concatenation are
probed, and every link beyond the cap gets a persisted record tagged
not broken regardless of the network behaviour. -/
theorem links_beyond_cap_not_broken (net : Network) (cid : Nat)
    (internalLinks externalLinks : List String)
    (hnd : (internalLinks ++ externalLinks).Nodup)
    (hlen : 50 < (internalLinks ++ externalLinks).length) :
    probedLinks internalLinks externalLinks = (internalLinks ++ externalLinks).take 50
    ∧ (probedLinks internalLinks externalLinks).length = 50
    ∧ checkLinkAccessibility net internalLinks externalLinks
        = (probedLinks internalLinks externalLinks).filter (isLinkBroken net)
    ∧ ∀ l ∈ (internalLinks ++ externalLinks).drop 50,
        ∃ rec ∈ saveLinks cid internalLinks externalLinks
            (checkLinkAccessibility net internalLinks externalLinks),
          rec.url = truncateURL l ∧ rec.isBroken = false := by
  have hp : probedLinks internalLinks externalLinks
      = (internalLinks ++ externalLinks).take 50 := by
    unfold probedLinks
    rw [if_pos (by omega)]
  refine ⟨hp, ?_, ?_, ?_⟩
  · rw [hp, List.length_take]
    omega
  · rw [checkLinkAccessibility_eq, hp]
  · intro l hl
    have hnotin : l ∉ checkLinkAccessibility net internalLinks externalLinks := by
      intro hmem
      rw [checkLinkAccessibility_eq] at hmem
      have hin : l ∈ (internalLinks ++ externalLinks).take 50 := List.mem_of_mem_filter hmem
      exact (List.disjoint_take_drop hnd (le_refl 50)) hin hl
    have hcont : (checkLinkAccessibility net internalLinks externalLinks).contains l = false := by
      rcases h : (checkLinkAccessibility net internalLinks externalLinks).contains l with _ | _
      · rfl
      · exact absurd (List.mem_of_elem_eq_true h) hnotin
    have hmem0 : l ∈ internalLinks ++ externalLinks := by
      rw [← List.take_append_drop 50 (internalLinks ++ externalLinks)]
      exact List.mem_append_right _ hl
    rcases List.mem_append.mp hmem0 with h | h
    · refine ⟨mkLinkEntry cid LinkType.internal
          (checkLinkAccessibility net internalLinks externalLinks) l,
        List.mem_append_left _ (List.mem_map_of_mem _ h), rfl, ?_⟩
      exact hcont
    · refine ⟨mkLinkEntry cid LinkType.external
          (checkLinkAccessibility net internalLinks externalLinks) l,
        List.mem_append_right _ (List.mem_map_of_mem _ h), rfl, ?_⟩
      exact hcont

/-- 51 distinct internal links for the beyond-cap witness. -/
def manyLinks : List String :=
  (List.range 51).map (fun k => "https://s.com/p" ++ toString k)

set_option maxRecDepth 8000 in
/-- C8 witness: 52 distinct links, all probes erroring out; the links
beyond the cap are still saved as not broken. -/
theorem links_beyond_cap_not_broken_witness :
    (manyLinks ++ ["https://ext.com/x"]).Nodup
    ∧ 50 < (manyLinks ++ ["https://ext.com/x"]).length
    ∧ (probedLinks manyLinks ["https://ext.com/x"]
          = (manyLinks ++ ["https://ext.com/x"]).take 50
        ∧ (probedLinks manyLinks ["https://ext.com/x"]).length = 50
        ∧ checkLinkAccessibility ⟨fun _ => none, fun _ => none⟩ manyLinks ["https://ext.com/x"]
            = (probedLinks manyLinks ["https://ext.com/x"]).filter
                (isLinkBroken ⟨fun _ => none, fun _ => none⟩)
        ∧ ∀ l ∈ (manyLinks ++ ["https://ext.com/x"]).drop 50,
            ∃ rec ∈ saveLinks 1 manyLinks ["https://ext.com/x"]
                (checkLinkAccessibility ⟨fun _ => none, fun _ => none⟩ manyLinks ["https://ext.com/x"]),
              rec.url = truncateURL l ∧ rec.isBroken = false) :=
  ⟨by decide, by decide,
    links_beyond_cap_not_broken ⟨fun _ => none, fun _ => none⟩ 1 manyLinks ["https://ext.com/x"]
      (by decide) (by decide)⟩
